import Mathlib

/-!
Verification development for the Twilio bulk-export CSV tool.

The pure core of the pipeline is embedded here:

* src/services/twilio/download.js : sanitizeFolderName, extractDaysFromJob,
  the day-set reconciliation inside downloadCustomJobExports, the per-day
  retry loop downloadWithRetry, and the download-summary aggregation.
* src/services/twilio/export.js : the completion test performed on each tick
  of pollExportJobCompletion.
* src/services/fileProcessor.js : the merge / sort / column-union / cell
  serialization steps of processFiles.

JSON record values are modelled by the scalar constructors below; structured
(array/object) values, which the code routes through JSON.stringify before the
string rules, do not occur in any of the verified properties.
-/

namespace TwilioCsv

/-- A scalar JSON value as produced by JSON.parse of one export line. -/
inductive JValue where
  | vNull
  | vBool (b : Bool)
  | vNum (n : Int)
  | vStr (s : String)
  deriving DecidableEq, Repr

/-- A parsed record: an ordered field-name / value mapping
(JS object key insertion order). -/
abbrev Rec := List (String × JValue)

/-- Value of field k in record r (JS property read, first matching key). -/
def lookupField (r : Rec) (k : String) : Option JValue :=
  (r.find? (fun kv => kv.1 == k)).map (fun kv => kv.2)

/-- JS property assignment r[k] = v: overwrite in place if the key exists,
otherwise append the key at the end of the insertion order. -/
def setField (r : Rec) (k : String) (v : JValue) : Rec :=
  if r.any (fun kv => kv.1 == k) then
    r.map (fun kv => if kv.1 == k then (kv.1, v) else kv)
  else
    r ++ [(k, v)]

/-! ## sanitizeFolderName (download.js lines 52-54)

JS: name.replace(/[^a-zA-Z0-9_-]/g, _).replace(/_\x7b2,\x7d/g, _)
The first replace maps every character outside [A-Za-z0-9_-] to an
underscore; the second collapses every maximal run of two or more
underscores to a single underscore. -/

/-- Character class [a-zA-Z0-9_-] of the sanitizing regex. -/
def safeChar (c : Char) : Bool :=
  (decide ('a' ≤ c) && decide (c ≤ 'z')) ||
  (decide ('A' ≤ c) && decide (c ≤ 'Z')) ||
  (decide ('0' ≤ c) && decide (c ≤ '9')) ||
  c == '_' || c == '-'

/-- First replace of sanitizeFolderName, applied per character. -/
def sanitizeChar (c : Char) : Char :=
  if safeChar c then c else '_'

/-- Second replace of sanitizeFolderName: keep the first underscore of every
run, drop the following ones. The flag records whether the previously kept
character was an underscore. -/
def collapseUnderscores : Bool → List Char → List Char
  | _, [] => []
  | prevU, c :: rest =>
    if c = '_' then
      if prevU then collapseUnderscores true rest
      else '_' :: collapseUnderscores true rest
    else c :: collapseUnderscores false rest

/-- sanitizeFolderName from download.js. -/
def sanitizeFolderName (name : String) : String :=
  String.mk (collapseUnderscores false (name.data.map sanitizeChar))

/-! ## Cell serialization (fileProcessor.js lines 145-171) -/

/-- Regex replace /\r?\n|\r/g with a single space. -/
def collapseNewlines : List Char → List Char
  | [] => []
  | '\r' :: '\n' :: rest => ' ' :: collapseNewlines rest
  | '\r' :: rest => ' ' :: collapseNewlines rest
  | '\n' :: rest => ' ' :: collapseNewlines rest
  | c :: rest => c :: collapseNewlines rest

/-- Regex replace /"/g with two double quotes. -/
def escapeQuotes (l : List Char) : List Char :=
  (l.map (fun c => if c = '"' then ['"', '"'] else [c])).flatten

/-- JS String.replace with the plain-string pattern "." : replace only the
first occurrence of a period by a comma. -/
def replaceFirstDot : List Char → List Char
  | [] => []
  | c :: rest => if c = '.' then ',' :: rest else c :: replaceFirstDot rest

/-- One cell of the report, fileProcessor.js lines 145-171.
none models a missing property (record[col] === undefined).
Booleans and numbers pass through the string branch untouched and are
stringified by Array.prototype.join. -/
def serializeCell (col : String) (v : Option JValue) : String :=
  match v with
  | none => ""
  | some JValue.vNull => ""
  | some (JValue.vBool b) => if b then "true" else "false"
  | some (JValue.vNum n) => toString n
  | some (JValue.vStr s) =>
    let s1 := collapseNewlines s.data
    let s2 := String.mk (escapeQuotes s1)
    let s3 :=
      if col == "to" || col == "from" then "=\"" ++ s2 ++ "\""
      else if s2.data.contains ';' || s2.data.contains '"' then "\"" ++ s2 ++ "\""
      else s2
    if col == "price" then String.mk (replaceFirstDot s3.data) else s3

/-! ## Transform pipeline (fileProcessor.js lines 113-186)

Per-file parsing yields one record list per file together with the day string
extracted from the filename (export_YYYY-MM-DD.json.gz); each record gets the
day attached as its fileDate property at parse time (line 79). The merged
list is sorted by the comparator of lines 123-127, which compares the
fileDate strings; since every pipeline record carries a string fileDate,
the comparator is the lexicographic order on dayOf, and Array.prototype.sort
is a stable sort, modelled by List.mergeSort. -/

/-- Line 79: record.fileDate = fileDate. -/
def tagRecord (d : String) (r : Rec) : Rec :=
  setField r "fileDate" (JValue.vStr d)

/-- Lines 113-115: tag each file's records, then flatten all per-file lists
in file order. -/
def mergeFiles (files : List (String × List Rec)) : List Rec :=
  (files.map (fun f => f.2.map (tagRecord f.1))).flatten

/-- The sort key of the comparator at lines 123-127: the record's fileDate
string (every record reaching the sort carries one, attached by tagRecord). -/
def dayOf (r : Rec) : String :=
  match lookupField r "fileDate" with
  | some (JValue.vStr s) => s
  | _ => ""

/-- The comparator of lines 123-127 as a total boolean preorder. -/
def recLE (a b : Rec) : Bool :=
  decide (dayOf a ≤ dayOf b)

/-- Line 123: stable sort of the merged records by fileDate. -/
def sortRecords (l : List Rec) : List Rec :=
  l.mergeSort recLE

/-- The merged-and-sorted record sequence handed to serialization. -/
def processedRecords (files : List (String × List Rec)) : List Rec :=
  sortRecords (mergeFiles files)

/-- JS Set.add: append if not already present (insertion order kept). -/
def addUnique (l : List String) (d : String) : List String :=
  if l.contains d then l else l ++ [d]

/-- Inner forEach of the column union: add every key of one record to the
accumulating set. -/
def addKeys (acc : List String) (r : Rec) : List String :=
  r.foldl (fun acc2 kv => addUnique acc2 kv.1) acc

/-- Lines 131-136: the column set is the union of all record keys, in
first-seen order over the (sorted) record sequence. -/
def reportColumns (records : List Rec) : List String :=
  records.foldl addKeys []

/-- Lines 145-172: the list of serialized cells of one row, one per column. -/
def rowCells (columns : List String) (r : Rec) : List String :=
  columns.map (fun c => serializeCell c (lookupField r c))

/-- Line 172: cells joined by the field delimiter. -/
def rowLine (columns : List String) (r : Rec) : String :=
  String.intercalate ";" (rowCells columns r)

/-- Line 180: the single-cell placeholder pushed instead of a row whose
assembly threw. -/
def placeholderLine (i : Nat) : String :=
  "\"ERROR_FORMATTING_RECORD_" ++ toString i ++ "\""

/-- The placeholder row viewed as its list of fields: the placeholder is
pushed as one whole line, i.e. a single field. -/
def placeholderCells (i : Nat) : List String :=
  [placeholderLine i]

/-- Header line plus one line per record (lines 139-143, 184), as rows of
cells. -/
def reportRows (files : List (String × List Rec)) : List (List String) :=
  let all := processedRecords files
  let cols := reportColumns all
  all.map (rowCells cols)

/-- Modelled from the spec (for refinement comparison with reportColumns):
the column set as §3 and C8 describe it, the union of the field names of the
parsed input records alone — without the system-attached source-day tag —
in first-seen order over the day-sorted sequence. -/
def reportColumnsSpec (files : List (String × List Rec)) : List String :=
  let tagged := (files.map (fun f => f.2.map (fun r => (f.1, r)))).flatten
  let sorted := tagged.mergeSort (fun a b => decide (a.1 ≤ b.1))
  sorted.foldl (fun acc p => addKeys acc p.2) []

/-! ## Job details and day-set reconciliation (download.js) -/

/-- One status bucket of a job's details. days is none when the bucket has
no days array (Array.isArray fails); count is the day count used by the
poller (detail.count, 0 when absent). -/
structure Detail where
  status : String
  days : Option (List JValue) := none
  count : Nat := 0
  deriving DecidableEq, Repr

/-- An export job as consumed by the reconciler and the poller. details is
none when job.details is absent (falsy / not an array). -/
structure Job where
  jobSid : String := ""
  friendlyName : String := ""
  details : Option (List Detail) := none
  deriving DecidableEq, Repr

/-- Result of extractDaysFromJob (download.js lines 60-91). -/
structure DaysFromJob where
  daysWithData : List String
  emptyDays : List String
  deriving DecidableEq, Repr

/-- Inner forEach of extractDaysFromJob: add every string entry of a
days array to the accumulating set (non-strings are skipped). -/
def addStringDays (acc : List String) (days : List JValue) : List String :=
  days.foldl (fun a v => match v with | JValue.vStr s => addUnique a s | _ => a) acc

/-- Body of the detail forEach of extractDaysFromJob: a bucket without a
days array contributes nothing, whatever its status. -/
def extractStep (acc : DaysFromJob) (det : Detail) : DaysFromJob :=
  match det.days with
  | none => acc
  | some l =>
    if det.status == "Completed" then
      { acc with daysWithData := addStringDays acc.daysWithData l }
    else if det.status == "CompletedEmptyRecords" then
      { acc with emptyDays := addStringDays acc.emptyDays l }
    else acc

/-- extractDaysFromJob, download.js lines 60-91: one pass over the detail
buckets, collecting Completed days and CompletedEmptyRecords days into two
insertion-ordered sets. -/
def extractDaysFromJob (job : Job) : DaysFromJob :=
  match job.details with
  | none => ⟨[], []⟩
  | some ds => ds.foldl extractStep ⟨[], []⟩

/-- Modelled from the spec: src/utils/dateUtils.js is not among the provided
sources (only its callers are). §4.1: the user window is the inclusive list
of calendar-day strings between two YYYY-MM-DD dates (computed at local noon
in the original, which only guards against timezone boundary slips and does
not affect the produced day strings). Two-digit zero padding of month and
day. -/
def pad2 (n : Nat) : String :=
  if n < 10 then "0" ++ toString n else toString n

/-- Four-digit zero padding of the year of a formatted day string. -/
def pad4 (n : Nat) : String :=
  if n < 10 then "000" ++ toString n
  else if n < 100 then "00" ++ toString n
  else if n < 1000 then "0" ++ toString n
  else toString n

/-- Gregorian leap-year test. -/
def isLeap (y : Nat) : Bool :=
  (y % 4 == 0 && y % 100 != 0) || y % 400 == 0

/-- Number of days of month m of year y. -/
def daysInMonth (y m : Nat) : Nat :=
  if m == 2 then (if isLeap y then 29 else 28)
  else if m == 4 || m == 6 || m == 9 || m == 11 then 30
  else 31

/-- Calendar successor of a (year, month, day) triple. -/
def nextCalDay : Nat × Nat × Nat → Nat × Nat × Nat
  | (y, m, d) =>
    if d < daysInMonth y m then (y, m, d + 1)
    else if m < 12 then (y, m + 1, 1)
    else (y + 1, 1, 1)

/-- Render a (year, month, day) triple as YYYY-MM-DD. -/
def formatDay : Nat × Nat × Nat → String
  | (y, m, d) => pad4 y ++ "-" ++ pad2 m ++ "-" ++ pad2 d

/-- Split a character list on dashes. -/
def splitDash : List Char → List (List Char)
  | [] => [[]]
  | c :: rest =>
    let r := splitDash rest
    if c = '-' then [] :: r
    else (c :: r.headD []) :: r.tail

/-- Decimal value of a digit character. -/
def charDigit (c : Char) : Option Nat :=
  if '0' ≤ c ∧ c ≤ '9' then some (c.toNat - '0'.toNat) else none

/-- Decimal value of a nonempty digit string. -/
def digitsToNat (l : List Char) : Option Nat :=
  match l with
  | [] => none
  | _ => l.foldl (fun acc c =>
      match acc, charDigit c with
      | some a, some d => some (a * 10 + d)
      | _, _ => none) (some 0)

/-- Parse YYYY-MM-DD into (year, month, day); malformed input parses to
(0, 0, 0). -/
def parseDay (s : String) : Nat × Nat × Nat :=
  match (splitDash s.data).map digitsToNat with
  | [some y, some m, some d] => (y, m, d)
  | _ => (0, 0, 0)

/-- Chronological order on (year, month, day) triples (for well-formed
YYYY-MM-DD strings this coincides with the lexicographic string order). -/
def dayTripleLE (a b : Nat × Nat × Nat) : Bool :=
  decide (a.1 < b.1) ||
  (a.1 == b.1 && (decide (a.2.1 < b.2.1) ||
    (a.2.1 == b.2.1 && decide (a.2.2 ≤ b.2.2))))

/-- Fuel-bounded walk from a start day, emitting each day string while it is
at most the end day. -/
def genDays : Nat → Nat × Nat × Nat → Nat × Nat × Nat → List String
  | 0, _, _ => []
  | fuel + 1, cur, endT =>
    if dayTripleLE cur endT then formatDay cur :: genDays fuel (nextCalDay cur) endT
    else []

/-- Modelled from the spec: generateDaysBetweenDates of the missing
src/utils/dateUtils.js — the inclusive list of day strings of the user
window. The fuel bounds the walk at about a millennium of days. -/
def generateDaysBetweenDates (startStr endStr : String) : List String :=
  genDays 400000 (parseDay startStr) (parseDay endStr)

/-- Result of the reconciliation step of downloadCustomJobExports
(download.js lines 249-288). -/
structure Reconciled where
  daysToDownload : List String
  emptyDaysInRange : List String
  totalDaysInRange : Nat
  daysOutsideJobScope : Int
  deriving DecidableEq, Repr

/-- Day-set reconciliation, download.js lines 249-264: without a window all
Completed days are downloaded; with a window both day sets are intersected
with the window (Set membership of the generated range) and the
out-of-scope count is the arithmetic difference of line 264. -/
def reconcileDays (job : Job) (window : Option (String × String)) : Reconciled :=
  let e := extractDaysFromJob job
  match window with
  | none => ⟨e.daysWithData, [], 0, 0⟩
  | some w =>
    let range := generateDaysBetweenDates w.1 w.2
    let dtd := e.daysWithData.filter (fun d => range.contains d)
    let edr := e.emptyDays.filter (fun d => range.contains d)
    ⟨dtd, edr, range.length,
      (range.length : Int) - (dtd.length : Int) - (edr.length : Int)⟩

/-! ## Completion poller (export.js lines 317-438) -/

/-- The per-tick bucket fold of pollExportJobCompletion: completedDays
(Completed plus CompletedEmptyRecords counts) and failedDays (Failed
counts). The counters kept only for progress logging are omitted. -/
def pollCounts (ds : List Detail) : Nat × Nat :=
  ds.foldl (fun cf det =>
    if det.status == "Completed" then (cf.1 + det.count, cf.2)
    else if det.status == "CompletedEmptyRecords" then (cf.1 + det.count, cf.2)
    else if det.status == "Failed" then (cf.1, cf.2 + det.count)
    else cf) (0, 0)

/-- One tick of the polling loop: none models a status fetch that threw
(caught at line 425, loop continues) and a job whose details are still
absent (line 421); some j is returned when the completion test of lines
393-420 fires: completedDays at least expectedDays, or some days failed and
completed plus failed covers expectedDays. -/
def tickCheck (expectedDays : Nat) (t : Option Job) : Option Job :=
  match t with
  | none => none
  | some j =>
    match j.details with
    | none => none
    | some ds =>
      let cf := pollCounts ds
      if expectedDays ≤ cf.1 then some j
      else if 0 < cf.2 ∧ expectedDays ≤ cf.1 + cf.2 then some j
      else none

/-- The polling loop from tick index i with the given number of remaining
ticks; elapsed time advances by one poll interval per iteration, so the
wall-clock deadline amounts to a maximal number of ticks. none is the
timeout error of line 437. -/
def pollFrom (ticks : Nat → Option Job) (expectedDays : Nat) :
    Nat → Nat → Option Job
  | _, 0 => none
  | i, fuel + 1 =>
    match tickCheck expectedDays (ticks i) with
    | some j => some j
    | none => pollFrom ticks expectedDays (i + 1) fuel

/-- pollExportJobCompletion over an abstract stream of status fetches:
tick i yields the i-th getJob outcome; maxTicks is the deadline expressed
in poll intervals. -/
def pollExportJobCompletion (ticks : Nat → Option Job)
    (expectedDays maxTicks : Nat) : Option Job :=
  pollFrom ticks expectedDays 0 maxTicks

/-! ## Per-day retry loop (download.js lines 106-194) -/

/-- Observable trace of one downloadWithRetry run: how many attempts were
made, the backoff delays awaited between attempts (in milliseconds, in
order), and the final outcome — the first successful attempt's file result
(modelled by its byte size) or the last recorded error. -/
structure RetryTrace where
  attemptsMade : Nat
  delays : List Nat
  result : Except String Nat
  deriving Repr

/-- The while loop of lines 110-192. rem is the number of attempts still
allowed (loop guard attempts <= maxRetries with the counter incremented at
the top); attempt is the 1-based number of the attempt about to run;
outcome gives each attempt's result. After a failure that is not the final
attempt, the loop waits 1000 * 2 ^ (attempt - 1) ms (line 187) and retries;
after the final failure it rethrows the last error (line 193). -/
def retryGo (outcome : Nat → Except String Nat) :
    Nat → Nat → Option String → List Nat → RetryTrace
  | 0, attempt, lastErr, delays =>
    ⟨attempt - 1, delays.reverse,
      Except.error (lastErr.getD "no attempts were allowed")⟩
  | rem + 1, attempt, _, delays =>
    match outcome attempt with
    | Except.ok r => ⟨attempt, delays.reverse, Except.ok r⟩
    | Except.error e =>
      retryGo outcome rem (attempt + 1) (some e)
        (if rem = 0 then delays else (1000 * 2 ^ (attempt - 1)) :: delays)

/-- downloadWithRetry for one day, abstracted over the per-attempt outcome
(network fetch plus stream write of an attempt, success carrying the
downloaded size): at most maxRetries + 1 attempts. -/
def downloadWithRetry (outcome : Nat → Except String Nat)
    (maxRetries : Nat) : RetryTrace :=
  retryGo outcome (maxRetries + 1) 1 none []

/-! ## Download fan-out summary (download.js lines 289-364) -/

/-- The aggregate figures computed after Promise.all: per-day results in
day order, success and failure counts, byte total, the full failed-day
list, and the display string of line 362 (at most ten names shown). -/
structure DownloadSummary where
  successCount : Nat
  failedCount : Nat
  totalBytes : Nat
  failedDays : List String
  failedDaysDisplay : String
  deriving DecidableEq, Repr

/-- The fan-out of lines 308-342 over an abstract per-day terminal outcome:
none is a day whose downloadWithRetry threw after all attempts (the catch
at line 323 records the failure and resolves null); some sz is a success,
with sz the content-length when the header was present. Promise.all keeps
input order, so results is the per-day outcome list in day order. -/
def summarizeDownloads (days : List String)
    (outcome : String → Option (Option Nat)) : DownloadSummary :=
  let results := days.map outcome
  let successCount := (results.filter Option.isSome).length
  let failedCount := (results.filter Option.isNone).length
  let totalBytes := results.foldl
    (fun acc r => match r with | some (some b) => acc + b | _ => acc) 0
  let failedDays := ((days.zip results).filter (fun p => p.2.isNone)).map
    (fun p => p.1)
  let failedDaysDisplay :=
    String.intercalate ", " (failedDays.take 10) ++
      (if failedDays.length > 10 then
        " and " ++ toString (failedDays.length - 10) ++ " more..."
      else "")
  ⟨successCount, failedCount, totalBytes, failedDays, failedDaysDisplay⟩

/-! ## Example inputs used by the witnesses -/

/-- The job of the reconciliation example: Completed 2025-04-01 and
2025-04-02, CompletedEmptyRecords 2025-04-03. -/
def exampleJob : Job :=
  { details := some
      [ { status := "Completed",
          days := some [JValue.vStr "2025-04-01", JValue.vStr "2025-04-02"] },
        { status := "CompletedEmptyRecords",
          days := some [JValue.vStr "2025-04-03"] } ] }

/-- A job whose details report the given number of Completed days. -/
def jobWithCompleted (n : Nat) : Job :=
  { details := some [ { status := "Completed", count := n } ] }

/-- Status stream of the poller example: completedDays 0, 2, 5 across
successive ticks (and 5 from then on). -/
def exampleTicks (i : Nat) : Option Job :=
  some (jobWithCompleted ([0, 2, 5].getD i 5))

/-- A status stream that never reaches 5 completed days. -/
def stalledTicks (_ : Nat) : Option Job :=
  some (jobWithCompleted 2)

/-- Per-attempt outcome of the retry example: attempts 1 and 2 fail,
attempt 3 succeeds with a 7-byte file. -/
def exampleOutcome (a : Nat) : Except String Nat :=
  if a ≤ 2 then Except.error ("boom " ++ toString a) else Except.ok 7

/-- A per-attempt outcome whose every attempt fails. -/
def failingOutcome (a : Nat) : Except String Nat :=
  Except.error ("boom " ++ toString a)

/-- The backoff delays recorded between failed attempt lo and attempt hi:
one delay of 1000 * 2 ^ (b - 1) ms per failed attempt b in [lo, hi). -/
def expectedDelays (lo hi : Nat) : List Nat :=
  (List.range' lo (hi - lo)).map (fun b => 1000 * 2 ^ (b - 1))

/-- Content-length bytes contributed by one per-day outcome: the size of a
success that carried a content-length header, else nothing. -/
def bytesOf : Option (Option Nat) → Nat
  | some (some b) => b
  | _ => 0

/-- Input of the column counterexample: one file, one record, one field. -/
def cexFiles : List (String × List Rec) :=
  [("2025-04-01", [[("to", JValue.vStr "x")]])]

/-- Days of the fan-out example: twelve pending days. -/
def exFanDays : List String :=
  ["d01", "d02", "d03", "d04", "d05", "d06", "d07", "d08", "d09", "d10",
   "d11", "d12"]

/-- Per-day outcome of the fan-out example: only d01 succeeds (10 bytes),
the other eleven days fail after all attempts. -/
def exFanOutcome (d : String) : Option (Option Nat) :=
  if d == "d01" then some (some 10) else none

/-! # Theorems -/

/-! ## Helper lemmas about the insertion-ordered set -/

theorem mem_addUnique {l : List String} {d x : String} :
    x ∈ addUnique l d ↔ x ∈ l ∨ x = d := by
  unfold addUnique
  split
  · rename_i h
    constructor
    · exact Or.inl
    · rintro (hx | rfl)
      · exact hx
      · simpa using h
  · simp [or_comm]

theorem nodup_addUnique {l : List String} {d : String} (h : l.Nodup) :
    (addUnique l d).Nodup := by
  unfold addUnique
  split
  · exact h
  · rename_i hd
    simp only [List.contains, List.elem_eq_mem, decide_eq_true_eq] at hd
    simpa [List.nodup_append, h] using hd

/-! ## C10: sanitizeFolderName -/

theorem safeChar_sanitizeChar (c : Char) : safeChar (sanitizeChar c) = true := by
  unfold sanitizeChar
  split
  · assumption
  · decide

theorem mem_collapseUnderscores :
    ∀ (l : List Char) (prev : Bool) (c : Char),
      c ∈ collapseUnderscores prev l → c ∈ l
  | [], _, c, h => by simp [collapseUnderscores] at h
  | a :: rest, prev, c, h => by
    unfold collapseUnderscores at h
    split at h
    · rename_i ha
      subst ha
      split at h
      · exact List.mem_cons_of_mem _ (mem_collapseUnderscores rest true c h)
      · rcases List.mem_cons.mp h with rfl | h2
        · exact List.mem_cons_self _ _
        · exact List.mem_cons_of_mem _ (mem_collapseUnderscores rest true c h2)
    · rcases List.mem_cons.mp h with rfl | h2
      · exact List.mem_cons_self _ _
      · exact List.mem_cons_of_mem _ (mem_collapseUnderscores rest false c h2)

theorem head_collapseUnderscores_true :
    ∀ (l : List Char) (c : Char),
      (collapseUnderscores true l).head? = some c → c ≠ '_'
  | [], c, h => by simp [collapseUnderscores] at h
  | a :: rest, c, h => by
    unfold collapseUnderscores at h
    split at h
    · exact head_collapseUnderscores_true rest c h
    · rename_i ha
      simp only [List.head?_cons, Option.some.injEq] at h
      subst h
      exact ha

theorem chain_collapseUnderscores :
    ∀ (l : List Char) (prev : Bool),
      (collapseUnderscores prev l).Chain' (fun a b => ¬(a = '_' ∧ b = '_'))
  | [], _ => by simp [collapseUnderscores]
  | a :: rest, prev => by
    unfold collapseUnderscores
    split
    · rename_i ha
      subst ha
      split
      · exact chain_collapseUnderscores rest true
      · refine List.chain'_cons'.mpr ⟨?_, chain_collapseUnderscores rest true⟩
        intro b hb hab
        exact head_collapseUnderscores_true rest b hb hab.2
    · rename_i ha
      refine List.chain'_cons'.mpr ⟨?_, chain_collapseUnderscores rest false⟩
      intro b _ hab
      exact ha hab.1

theorem collapseUnderscores_eq_self :
    ∀ (l : List Char) (prev : Bool),
      l.Chain' (fun a b => ¬(a = '_' ∧ b = '_')) →
      (prev = true → ∀ c, l.head? = some c → c ≠ '_') →
      collapseUnderscores prev l = l
  | [], _, _, _ => by simp [collapseUnderscores]
  | a :: rest, prev, hchain, hhead => by
    unfold collapseUnderscores
    rcases List.chain'_cons'.mp hchain with ⟨hfirst, hrest⟩
    split
    · rename_i ha
      subst ha
      cases prev with
      | true => exact absurd rfl (hhead rfl _ rfl)
      | false =>
        simp only [if_neg Bool.false_ne_true]
        rw [collapseUnderscores_eq_self rest true hrest]
        intro _ c hc hcu
        exact hfirst c hc ⟨rfl, hcu⟩
    · rw [collapseUnderscores_eq_self rest false hrest (by simp)]

theorem map_sanitizeChar_eq_self :
    ∀ (l : List Char), (∀ c ∈ l, safeChar c = true) → l.map sanitizeChar = l
  | [], _ => rfl
  | a :: rest, h => by
    simp only [List.map_cons, List.cons.injEq]
    refine ⟨?_, map_sanitizeChar_eq_self rest fun c hc => h c (List.mem_cons_of_mem _ hc)⟩
    unfold sanitizeChar
    rw [if_pos (h a (List.mem_cons_self _ _))]

/-- C10: sanitizeFolderName is idempotent; its output contains only
characters of the class [A-Za-z0-9_-], with no two consecutive
underscores. -/
theorem sanitizeFolderName_idempotent (s : String) :
    sanitizeFolderName (sanitizeFolderName s) = sanitizeFolderName s ∧
    (∀ c ∈ (sanitizeFolderName s).data, safeChar c = true) ∧
    (sanitizeFolderName s).data.Chain' (fun a b => ¬(a = '_' ∧ b = '_')) := by
  have hdata : (sanitizeFolderName s).data
      = collapseUnderscores false (s.data.map sanitizeChar) := rfl
  have hsafe : ∀ c ∈ (sanitizeFolderName s).data, safeChar c = true := by
    intro c hc
    rw [hdata] at hc
    have := mem_collapseUnderscores _ _ _ hc
    rcases List.mem_map.mp this with ⟨c0, _, rfl⟩
    exact safeChar_sanitizeChar c0
  have hchain : (sanitizeFolderName s).data.Chain' (fun a b => ¬(a = '_' ∧ b = '_')) := by
    rw [hdata]; exact chain_collapseUnderscores _ false
  refine ⟨?_, hsafe, hchain⟩
  show String.mk (collapseUnderscores false ((sanitizeFolderName s).data.map sanitizeChar))
      = sanitizeFolderName s
  rw [map_sanitizeChar_eq_self _ hsafe,
    collapseUnderscores_eq_self _ false hchain (by simp)]

/-- Witness for C10 at a concrete folder name. -/
theorem sanitizeFolderName_idempotent_witness :
    sanitizeFolderName (sanitizeFolderName "My Job!! (April)")
        = sanitizeFolderName "My Job!! (April)" ∧
    (∀ c ∈ (sanitizeFolderName "My Job!! (April)").data, safeChar c = true) ∧
    (sanitizeFolderName "My Job!! (April)").data.Chain'
      (fun a b => ¬(a = '_' ∧ b = '_')) :=
  sanitizeFolderName_idempotent "My Job!! (April)"

/-! ## C7: cell serialization examples -/

/-- C7: the record with to = +15551234567 and price = 1.50 serializes its
to cell in formula quoting and its price cell with a decimal comma, and a
value containing the field delimiter is emitted wrapped in double quotes;
the full row of that record under its own columns is the two cells joined
by the delimiter. -/
theorem serializeCell_examples :
    serializeCell "to" (some (JValue.vStr "+15551234567")) = "=\"+15551234567\"" ∧
    serializeCell "price" (some (JValue.vStr "1.50")) = "1,50" ∧
    serializeCell "note" (some (JValue.vStr "a;b")) = "\"a;b\"" ∧
    rowCells ["to", "price"]
        [("to", JValue.vStr "+15551234567"), ("price", JValue.vStr "1.50")]
      = ["=\"+15551234567\"", "1,50"] ∧
    rowLine ["to", "price"]
        [("to", JValue.vStr "+15551234567"), ("price", JValue.vStr "1.50")]
      = "=\"+15551234567\";1,50" := by
  refine ⟨rfl, rfl, rfl, rfl, rfl⟩

/-! ## Day extraction lemmas -/

theorem mem_addStringDays :
    ∀ (days : List JValue) (acc : List String) (x : String),
      x ∈ addStringDays acc days ↔ x ∈ acc ∨ JValue.vStr x ∈ days
  | [], acc, x => by simp [addStringDays]
  | v :: rest, acc, x => by
    cases v with
    | vStr s =>
      have ih := mem_addStringDays rest (addUnique acc s) x
      simp only [addStringDays, List.foldl_cons] at ih ⊢
      rw [ih, mem_addUnique]
      simp only [List.mem_cons, JValue.vStr.injEq]
      tauto
    | vNull =>
      have ih := mem_addStringDays rest acc x
      simp only [addStringDays, List.foldl_cons] at ih ⊢
      rw [ih]
      simp
    | vBool b =>
      have ih := mem_addStringDays rest acc x
      simp only [addStringDays, List.foldl_cons] at ih ⊢
      rw [ih]
      simp
    | vNum n =>
      have ih := mem_addStringDays rest acc x
      simp only [addStringDays, List.foldl_cons] at ih ⊢
      rw [ih]
      simp

theorem nodup_addStringDays :
    ∀ (days : List JValue) (acc : List String), acc.Nodup →
      (addStringDays acc days).Nodup
  | [], _, h => h
  | v :: rest, acc, h => by
    cases v with
    | vStr s =>
      simpa only [addStringDays, List.foldl_cons] using
        nodup_addStringDays rest (addUnique acc s) (nodup_addUnique h)
    | vNull => simpa only [addStringDays, List.foldl_cons] using
        nodup_addStringDays rest acc h
    | vBool b => simpa only [addStringDays, List.foldl_cons] using
        nodup_addStringDays rest acc h
    | vNum n => simpa only [addStringDays, List.foldl_cons] using
        nodup_addStringDays rest acc h

theorem extractStep_of_none {det : Detail} (acc : DaysFromJob)
    (h : det.days = none) : extractStep acc det = acc := by
  unfold extractStep
  rw [h]

theorem extractStep_completed {det : Detail} (acc : DaysFromJob)
    {l : List JValue} (h : det.days = some l) (hs : det.status = "Completed") :
    extractStep acc det
      = { acc with daysWithData := addStringDays acc.daysWithData l } := by
  have hb : (det.status == "Completed") = true := by simpa using hs
  simp only [extractStep, h, hb, if_true]

theorem extractStep_cer {det : Detail} (acc : DaysFromJob)
    {l : List JValue} (h : det.days = some l) (hs1 : det.status ≠ "Completed")
    (hs2 : det.status = "CompletedEmptyRecords") :
    extractStep acc det
      = { acc with emptyDays := addStringDays acc.emptyDays l } := by
  have hb1 : (det.status == "Completed") = false := by simpa using hs1
  have hb2 : (det.status == "CompletedEmptyRecords") = true := by simpa using hs2
  simp only [extractStep, h, hb1, hb2, Bool.false_eq_true, if_false, if_true]

theorem extractStep_other {det : Detail} (acc : DaysFromJob)
    {l : List JValue} (h : det.days = some l) (hs1 : det.status ≠ "Completed")
    (hs2 : det.status ≠ "CompletedEmptyRecords") :
    extractStep acc det = acc := by
  have hb1 : (det.status == "Completed") = false := by simpa using hs1
  have hb2 : (det.status == "CompletedEmptyRecords") = false := by simpa using hs2
  simp only [extractStep, h, hb1, hb2, Bool.false_eq_true, if_false]

theorem extractStep_data_of_not_completed {det : Detail} (acc : DaysFromJob)
    (hs : det.status ≠ "Completed") :
    (extractStep acc det).daysWithData = acc.daysWithData := by
  cases hdays : det.days with
  | none => rw [extractStep_of_none acc hdays]
  | some l =>
    by_cases hcer : det.status = "CompletedEmptyRecords"
    · rw [extractStep_cer acc hdays hs hcer]
    · rw [extractStep_other acc hdays hs hcer]

theorem extractStep_nodup {det : Detail} (acc : DaysFromJob)
    (h1 : acc.daysWithData.Nodup) (h2 : acc.emptyDays.Nodup) :
    (extractStep acc det).daysWithData.Nodup ∧
      (extractStep acc det).emptyDays.Nodup := by
  cases hdays : det.days with
  | none => rw [extractStep_of_none acc hdays]; exact ⟨h1, h2⟩
  | some l =>
    by_cases hc : det.status = "Completed"
    · rw [extractStep_completed acc hdays hc]
      exact ⟨nodup_addStringDays l _ h1, h2⟩
    · by_cases hcer : det.status = "CompletedEmptyRecords"
      · rw [extractStep_cer acc hdays hc hcer]
        exact ⟨h1, nodup_addStringDays l _ h2⟩
      · rw [extractStep_other acc hdays hc hcer]
        exact ⟨h1, h2⟩

theorem extract_fold_nodup :
    ∀ (ds : List Detail) (acc : DaysFromJob),
      acc.daysWithData.Nodup → acc.emptyDays.Nodup →
      (ds.foldl extractStep acc).daysWithData.Nodup ∧
        (ds.foldl extractStep acc).emptyDays.Nodup
  | [], _, h1, h2 => ⟨h1, h2⟩
  | det :: rest, acc, h1, h2 => by
    rw [List.foldl_cons]
    obtain ⟨a, b⟩ := @extractStep_nodup det acc h1 h2
    exact extract_fold_nodup rest (extractStep acc det) a b

theorem extract_fold_mem_data :
    ∀ (ds : List Detail) (acc : DaysFromJob) (x : String),
      x ∈ (ds.foldl extractStep acc).daysWithData ↔
        x ∈ acc.daysWithData ∨
          ∃ det ∈ ds, det.status = "Completed" ∧
            ∃ l, det.days = some l ∧ JValue.vStr x ∈ l
  | [], acc, x => by simp
  | det :: rest, acc, x => by
    rw [List.foldl_cons, extract_fold_mem_data rest (extractStep acc det) x]
    by_cases hc : det.status = "Completed"
    · cases hdays : det.days with
      | none =>
        rw [extractStep_of_none acc hdays]
        simp only [List.exists_mem_cons_iff, hdays]
        simp
      | some l =>
        rw [extractStep_completed acc hdays hc]
        simp only [List.exists_mem_cons_iff, hdays, hc]
        show x ∈ addStringDays acc.daysWithData l ∨ _ ↔ _
        rw [mem_addStringDays]
        simp only [Option.some.injEq, true_and]
        constructor
        · rintro ((h | h) | h)
          · exact Or.inl h
          · exact Or.inr (Or.inl ⟨l, rfl, h⟩)
          · exact Or.inr (Or.inr h)
        · rintro (h | ⟨l2, rfl, h⟩ | h)
          · exact Or.inl (Or.inl h)
          · exact Or.inl (Or.inr h)
          · exact Or.inr h
    · rw [extractStep_data_of_not_completed acc hc]
      simp only [List.exists_mem_cons_iff, hc]
      tauto

theorem extractDaysFromJob_nodup (job : Job) :
    (extractDaysFromJob job).daysWithData.Nodup ∧
      (extractDaysFromJob job).emptyDays.Nodup := by
  unfold extractDaysFromJob
  cases job.details with
  | none => constructor <;> simp
  | some ds => exact extract_fold_nodup ds ⟨[], []⟩ (by simp) (by simp)

/-! ## C9: reconciliation without a user window -/

/-- C9: with no user window, daysToDownload is exactly the set of days of
the Completed buckets, deduplicated (each day listed once even when it
occurs in several buckets). -/
theorem reconcileDays_no_window (job : Job) :
    (reconcileDays job none).daysToDownload
        = (extractDaysFromJob job).daysWithData ∧
    (reconcileDays job none).daysToDownload.Nodup ∧
    (∀ d : String, d ∈ (reconcileDays job none).daysToDownload ↔
      ∃ det ∈ job.details.getD [], det.status = "Completed" ∧
        ∃ l, det.days = some l ∧ JValue.vStr d ∈ l) := by
  refine ⟨rfl, (extractDaysFromJob_nodup job).1, ?_⟩
  intro d
  show d ∈ (extractDaysFromJob job).daysWithData ↔ _
  unfold extractDaysFromJob
  cases job.details with
  | none => simp
  | some ds => rw [extract_fold_mem_data ds ⟨[], []⟩ d]; simp

/-- Witness for C9: the example job, where 2025-04-02 also reappears in a
second Completed bucket and is still listed once. -/
theorem reconcileDays_no_window_witness :
    (reconcileDays exampleJob none).daysToDownload
        = (extractDaysFromJob exampleJob).daysWithData ∧
    (reconcileDays exampleJob none).daysToDownload.Nodup ∧
    (∀ d : String, d ∈ (reconcileDays exampleJob none).daysToDownload ↔
      ∃ det ∈ exampleJob.details.getD [], det.status = "Completed" ∧
        ∃ l, det.days = some l ∧ JValue.vStr d ∈ l) :=
  reconcileDays_no_window exampleJob

/-! ## C2: reconciliation with a user window -/

/-- C2: with a window, daysToDownload is the Completed days intersected
with the window, emptyDaysInRange the CompletedEmptyRecords days
intersected with the window, and daysOutsideJobScope the total window
length minus both intersection sizes — nonnegative whenever the job's two
day sets are disjoint (well-formed input). -/
theorem reconcileDays_window (job : Job) (us ue : String)
    (hdisj : ∀ d, d ∈ (extractDaysFromJob job).daysWithData →
        d ∉ (extractDaysFromJob job).emptyDays) :
    (reconcileDays job (some (us, ue))).daysToDownload
        = (extractDaysFromJob job).daysWithData.filter
            (fun d => (generateDaysBetweenDates us ue).contains d) ∧
    (reconcileDays job (some (us, ue))).emptyDaysInRange
        = (extractDaysFromJob job).emptyDays.filter
            (fun d => (generateDaysBetweenDates us ue).contains d) ∧
    (reconcileDays job (some (us, ue))).totalDaysInRange
        = (generateDaysBetweenDates us ue).length ∧
    (reconcileDays job (some (us, ue))).daysOutsideJobScope
        = ((reconcileDays job (some (us, ue))).totalDaysInRange : Int)
          - ((reconcileDays job (some (us, ue))).daysToDownload.length : Int)
          - ((reconcileDays job (some (us, ue))).emptyDaysInRange.length : Int) ∧
    0 ≤ (reconcileDays job (some (us, ue))).daysOutsideJobScope := by
  refine ⟨rfl, rfl, rfl, rfl, ?_⟩
  show (0 : Int) ≤ ((generateDaysBetweenDates us ue).length : Int)
      - (((extractDaysFromJob job).daysWithData.filter
          (fun d => (generateDaysBetweenDates us ue).contains d)).length : Int)
      - (((extractDaysFromJob job).emptyDays.filter
          (fun d => (generateDaysBetweenDates us ue).contains d)).length : Int)
  have hnodup := extractDaysFromJob_nodup job
  have hnd : ((extractDaysFromJob job).daysWithData.filter
        (fun d => (generateDaysBetweenDates us ue).contains d)
      ++ (extractDaysFromJob job).emptyDays.filter
        (fun d => (generateDaysBetweenDates us ue).contains d)).Nodup := by
    rw [List.nodup_append]
    refine ⟨hnodup.1.filter _, hnodup.2.filter _, ?_⟩
    intro a ha hb
    exact hdisj a (List.mem_filter.mp ha).1 (List.mem_filter.mp hb).1
  have hsub : ((extractDaysFromJob job).daysWithData.filter
        (fun d => (generateDaysBetweenDates us ue).contains d)
      ++ (extractDaysFromJob job).emptyDays.filter
        (fun d => (generateDaysBetweenDates us ue).contains d))
      ⊆ generateDaysBetweenDates us ue := by
    intro a ha
    rcases List.mem_append.mp ha with h | h <;>
      · have := (List.mem_filter.mp h).2
        simpa [List.contains, List.elem_eq_mem] using this
  have hlen := (List.subperm_of_subset hnd hsub).length_le
  rw [List.length_append] at hlen
  omega

/-- Witness for C2: the worked example — Completed 2025-04-01 and
2025-04-02, CompletedEmptyRecords 2025-04-03, window
2025-04-01..2025-04-03. -/
theorem reconcileDays_window_witness :
    (reconcileDays exampleJob (some ("2025-04-01", "2025-04-03"))).daysToDownload
        = ["2025-04-01", "2025-04-02"] ∧
    (reconcileDays exampleJob (some ("2025-04-01", "2025-04-03"))).emptyDaysInRange
        = ["2025-04-03"] ∧
    (reconcileDays exampleJob (some ("2025-04-01", "2025-04-03"))).totalDaysInRange
        = 3 ∧
    (reconcileDays exampleJob (some ("2025-04-01", "2025-04-03"))).daysOutsideJobScope
        = 0 ∧
    0 ≤ (reconcileDays exampleJob
        (some ("2025-04-01", "2025-04-03"))).daysOutsideJobScope := by
  have h := reconcileDays_window exampleJob "2025-04-01" "2025-04-03"
    (by
      intro d hd hc
      have hd2 : d ∈ ["2025-04-01", "2025-04-02"] := hd
      have hc2 : d ∈ ["2025-04-03"] := hc
      simp only [List.mem_cons, List.not_mem_nil, or_false] at hd2 hc2
      rcases hd2 with rfl | rfl <;> simp at hc2)
  exact ⟨by decide, by decide, by decide, by decide, h.2.2.2.2⟩

/-! ## C3: completion poller -/

theorem pollFrom_hit :
    ∀ (fuel i0 i : Nat) (ticks : Nat → Option Job) (e : Nat) (jb : Job),
      i0 ≤ i → i < i0 + fuel →
      (∀ k, i0 ≤ k → k < i → tickCheck e (ticks k) = none) →
      tickCheck e (ticks i) = some jb →
      pollFrom ticks e i0 fuel = some jb
  | 0, i0, i, _, _, _, h1, h2, _, _ => by omega
  | fuel + 1, i0, i, ticks, e, jb, h1, h2, hbefore, hat => by
    by_cases hi : i0 = i
    · subst hi
      simp only [pollFrom, hat]
    · have hnone : tickCheck e (ticks i0) = none :=
        hbefore i0 le_rfl (lt_of_le_of_ne h1 hi)
      simp only [pollFrom, hnone]
      exact pollFrom_hit fuel (i0 + 1) i ticks e jb (by omega) (by omega)
        (fun k hk1 hk2 => hbefore k (by omega) hk2) hat

theorem pollFrom_timeout :
    ∀ (fuel i0 : Nat) (ticks : Nat → Option Job) (e : Nat),
      (∀ k, i0 ≤ k → k < i0 + fuel → tickCheck e (ticks k) = none) →
      pollFrom ticks e i0 fuel = none
  | 0, _, _, _, _ => rfl
  | fuel + 1, i0, ticks, e, h => by
    have hnone : tickCheck e (ticks i0) = none := h i0 le_rfl (by omega)
    simp only [pollFrom, hnone]
    exact pollFrom_timeout fuel (i0 + 1) ticks e
      (fun k hk1 hk2 => h k (by omega) (by omega))

/-- C3: the poller returns the job of the first tick whose status passes
the completion test (completedDays at least expectedDays, or some failures
and completed plus failed covering expectedDays), and its outcome does not
depend on any later tick; when no tick within the deadline passes the test,
it times out with the error result. -/
theorem pollExportJobCompletion_first_hit :
    (∀ (ticks : Nat → Option Job) (e maxTicks i : Nat) (jb : Job),
        i < maxTicks →
        (∀ k, k < i → tickCheck e (ticks k) = none) →
        tickCheck e (ticks i) = some jb →
        pollExportJobCompletion ticks e maxTicks = some jb ∧
          ∀ ticks2 : Nat → Option Job, (∀ k, k ≤ i → ticks2 k = ticks k) →
            pollExportJobCompletion ticks2 e maxTicks = some jb) ∧
    (∀ (ticks : Nat → Option Job) (e maxTicks : Nat),
        (∀ k, k < maxTicks → tickCheck e (ticks k) = none) →
        pollExportJobCompletion ticks e maxTicks = none) := by
  constructor
  · intro ticks e maxTicks i jb hi hbefore hat
    constructor
    · exact pollFrom_hit maxTicks 0 i ticks e jb (Nat.zero_le i) (by omega)
        (fun k _ hk => hbefore k hk) hat
    · intro ticks2 hagree
      refine pollFrom_hit maxTicks 0 i ticks2 e jb (Nat.zero_le i) (by omega)
        (fun k _ hk => ?_) ?_
      · rw [hagree k (le_of_lt hk)]
        exact hbefore k hk
      · rw [hagree i le_rfl]
        exact hat
  · intro ticks e maxTicks h
    exact pollFrom_timeout maxTicks 0 ticks e (fun k _ hk => h k (by omega))

/-- Witness for C3: with expectedDays 5 and ticks reporting 0, 2, 5
completed days the poller returns at the third tick; a stream stalled at 2
completed days times out. -/
theorem pollExportJobCompletion_first_hit_witness :
    pollExportJobCompletion exampleTicks 5 100 = some (jobWithCompleted 5) ∧
    pollExportJobCompletion stalledTicks 5 100 = none := by
  refine ⟨?_, pollExportJobCompletion_first_hit.2 stalledTicks 5 100
    (fun k _ => rfl)⟩
  exact (pollExportJobCompletion_first_hit.1 exampleTicks 5 100 2
    (jobWithCompleted 5) (by omega)
    (fun k hk => by interval_cases k <;> rfl) rfl).1

/-! ## C6: per-day retry loop -/

theorem expectedDelays_step (lo hi : Nat) (h1 : lo < hi) :
    expectedDelays lo hi
      = 1000 * 2 ^ (lo - 1) :: expectedDelays (lo + 1) hi := by
  unfold expectedDelays
  rw [show hi - lo = (hi - (lo + 1)) + 1 by omega, List.range'_succ]
  rfl

theorem retryGo_attempts_le :
    ∀ (rem attempt : Nat) (outcome : Nat → Except String Nat)
      (lastErr : Option String) (acc : List Nat),
      (retryGo outcome rem attempt lastErr acc).attemptsMade ≤ attempt + rem - 1
  | 0, attempt, outcome, lastErr, acc => by simp [retryGo]
  | rem + 1, attempt, outcome, lastErr, acc => by
    cases houtcome : outcome attempt with
    | ok r => simp only [retryGo, houtcome]; omega
    | error e =>
      simp only [retryGo, houtcome]
      have := retryGo_attempts_le rem (attempt + 1) outcome (some e)
        (if rem = 0 then acc else 1000 * 2 ^ (attempt - 1) :: acc)
      omega

theorem retryGo_success :
    ∀ (rem attempt a : Nat) (outcome : Nat → Except String Nat) (r : Nat)
      (lastErr : Option String) (acc : List Nat),
      attempt ≤ a → a < attempt + rem →
      (∀ b, attempt ≤ b → b < a → ∃ e, outcome b = Except.error e) →
      outcome a = Except.ok r →
      retryGo outcome rem attempt lastErr acc
        = ⟨a, acc.reverse ++ expectedDelays attempt a, Except.ok r⟩
  | 0, attempt, a, _, _, _, _, h1, h2, _, _ => by omega
  | rem + 1, attempt, a, outcome, r, lastErr, acc, h1, h2, herr, hok => by
    by_cases heq : attempt = a
    · subst heq
      simp only [retryGo, hok]
      simp [expectedDelays]
    · have hlt : attempt < a := lt_of_le_of_ne h1 heq
      obtain ⟨e, he⟩ := herr attempt le_rfl hlt
      simp only [retryGo, he]
      rw [if_neg (show ¬rem = 0 by omega)]
      rw [retryGo_success rem (attempt + 1) a outcome r (some e)
        (1000 * 2 ^ (attempt - 1) :: acc) (by omega) (by omega)
        (fun b hb1 hb2 => herr b (by omega) hb2) hok]
      rw [expectedDelays_step attempt a hlt]
      simp [List.append_assoc]

theorem retryGo_failure :
    ∀ (rem attempt : Nat) (outcome : Nat → Except String Nat)
      (errf : Nat → String) (lastErr : Option String) (acc : List Nat),
      1 ≤ rem →
      (∀ b, attempt ≤ b → b < attempt + rem → outcome b = Except.error (errf b)) →
      retryGo outcome rem attempt lastErr acc
        = ⟨attempt + rem - 1,
            acc.reverse ++ expectedDelays attempt (attempt + rem - 1),
            Except.error (errf (attempt + rem - 1))⟩
  | 0, _, _, _, _, _, hrem, _ => by omega
  | rem + 1, attempt, outcome, errf, lastErr, acc, _, herr => by
    have he : outcome attempt = Except.error (errf attempt) :=
      herr attempt le_rfl (by omega)
    simp only [retryGo, he]
    cases rem with
    | zero =>
      simp [retryGo, expectedDelays]
    | succ m =>
      rw [if_neg (by omega)]
      rw [retryGo_failure (m + 1) (attempt + 1) outcome errf
        (some (errf attempt)) (1000 * 2 ^ (attempt - 1) :: acc) (by omega)
        (fun b hb1 hb2 => herr b (by omega) (by omega))]
      have hidx : attempt + 1 + (m + 1) - 1 = attempt + (m + 1 + 1) - 1 := by omega
      rw [hidx, expectedDelays_step attempt (attempt + (m + 1 + 1) - 1) (by omega)]
      simp [List.append_assoc]

/-- C6: downloadWithRetry makes at most maxRetries + 1 attempts; it returns
the first successful attempt's file result, waiting 1000 * 2 ^ (i - 1) ms
before retry i (retry i being attempt i + 1), and throws the last recorded
error only after all maxRetries + 1 attempts failed. -/
theorem downloadWithRetry_spec :
    (∀ (outcome : Nat → Except String Nat) (maxRetries : Nat),
        (downloadWithRetry outcome maxRetries).attemptsMade ≤ maxRetries + 1) ∧
    (∀ (outcome : Nat → Except String Nat) (maxRetries a r : Nat),
        1 ≤ a → a ≤ maxRetries + 1 →
        (∀ b, 1 ≤ b → b < a → ∃ e, outcome b = Except.error e) →
        outcome a = Except.ok r →
        downloadWithRetry outcome maxRetries
          = ⟨a, expectedDelays 1 a, Except.ok r⟩) ∧
    (∀ (outcome : Nat → Except String Nat) (maxRetries : Nat)
        (errf : Nat → String),
        (∀ b, 1 ≤ b → b ≤ maxRetries + 1 → outcome b = Except.error (errf b)) →
        downloadWithRetry outcome maxRetries
          = ⟨maxRetries + 1, expectedDelays 1 (maxRetries + 1),
              Except.error (errf (maxRetries + 1))⟩) ∧
    (∀ a i, 1 ≤ i → i < a →
        (expectedDelays 1 a).getD (i - 1) 0 = 1000 * 2 ^ (i - 1)) := by
  refine ⟨?_, ?_, ?_, ?_⟩
  · intro outcome maxRetries
    have := retryGo_attempts_le (maxRetries + 1) 1 outcome none []
    unfold downloadWithRetry
    omega
  · intro outcome maxRetries a r h1 h2 herr hok
    unfold downloadWithRetry
    rw [retryGo_success (maxRetries + 1) 1 a outcome r none [] h1 (by omega)
      herr hok]
    rfl
  · intro outcome maxRetries errf herr
    unfold downloadWithRetry
    rw [retryGo_failure (maxRetries + 1) 1 outcome errf none [] (by omega)
      (fun b hb1 hb2 => herr b hb1 (by omega))]
    have hidx : 1 + (maxRetries + 1) - 1 = maxRetries + 1 := by omega
    rw [hidx]
    rfl
  · intro a i h1 h2
    unfold expectedDelays
    rw [List.getD_eq_getElem?_getD, List.getElem?_map,
      List.getElem?_range' 1 1 (show i - 1 < a - 1 by omega)]
    show 1000 * 2 ^ (1 + 1 * (i - 1) - 1) = 1000 * 2 ^ (i - 1)
    congr 2
    omega

/-- Witness for C6: with maxRetries 3 and attempts 1 and 2 failing,
attempt 3 succeeds — three attempts, delays 1000 ms and 2000 ms; with
maxRetries 2 and every attempt failing, the third attempt's error is
thrown after delays 1000 ms and 2000 ms. -/
theorem downloadWithRetry_spec_witness :
    downloadWithRetry exampleOutcome 3
      = ⟨3, [1000, 2000], Except.ok 7⟩ ∧
    downloadWithRetry failingOutcome 2
      = ⟨3, [1000, 2000], Except.error "boom 3"⟩ ∧
    (downloadWithRetry failingOutcome 2).attemptsMade ≤ 2 + 1 := by
  refine ⟨?_, ?_, downloadWithRetry_spec.1 failingOutcome 2⟩
  · have h := downloadWithRetry_spec.2.1 exampleOutcome 3 3 7 (by omega)
      (by omega)
      (fun b hb1 hb2 => ⟨"boom " ++ toString b, by
        interval_cases b <;> rfl⟩)
      (by rfl)
    exact h.trans (by rfl)
  · have h := downloadWithRetry_spec.2.2.1 failingOutcome 2
      (fun b => "boom " ++ toString b) (fun b hb1 hb2 => rfl)
    exact h.trans (by rfl)

/-! ## C5: download fan-out summary -/

theorem failedDays_zip_eq :
    ∀ (days : List String) (outcome : String → Option (Option Nat)),
      ((days.zip (days.map outcome)).filter (fun p => p.2.isNone)).map
          (fun p => p.1)
        = days.filter (fun d => (outcome d).isNone)
  | [], _ => rfl
  | d :: rest, outcome => by
    simp only [List.map_cons, List.zip_cons_cons, List.filter_cons]
    cases h : (outcome d).isNone with
    | true => simp [h, failedDays_zip_eq rest outcome]
    | false => simp [h, failedDays_zip_eq rest outcome]

theorem foldl_bytes_eq :
    ∀ (l : List (Option (Option Nat))) (init : Nat),
      l.foldl (fun acc r =>
          match r with | some (some b) => acc + b | _ => acc) init
        = init + (l.map bytesOf).sum
  | [], _ => by simp
  | r :: rest, init => by
    rcases r with _ | (_ | b) <;>
      simp [List.foldl_cons, foldl_bytes_eq rest, bytesOf] <;> omega

/-- C5: a day whose every attempt fails is recorded as a failed result
without affecting any sibling day's success: the summary's failedDays is
the full (untruncated) list of failed day strings, its counts are exact
and complementary, its byte total sums the successful days' sizes, and
only the display string is capped at ten names. -/
theorem summarizeDownloads_spec (days : List String)
    (outcome : String → Option (Option Nat)) :
    (summarizeDownloads days outcome).failedDays
        = days.filter (fun d => (outcome d).isNone) ∧
    (∀ d, d ∈ (summarizeDownloads days outcome).failedDays ↔
        d ∈ days ∧ outcome d = none) ∧
    (summarizeDownloads days outcome).failedCount
        = days.countP (fun d => (outcome d).isNone) ∧
    (summarizeDownloads days outcome).successCount
        = days.countP (fun d => (outcome d).isSome) ∧
    (summarizeDownloads days outcome).successCount
        + (summarizeDownloads days outcome).failedCount = days.length ∧
    (summarizeDownloads days outcome).totalBytes
        = (days.map (fun d => bytesOf (outcome d))).sum ∧
    (summarizeDownloads days outcome).failedDaysDisplay
        = String.intercalate ", "
            ((days.filter (fun d => (outcome d).isNone)).take 10) ++
          (if (days.filter (fun d => (outcome d).isNone)).length > 10 then
            " and "
              ++ toString ((days.filter (fun d => (outcome d).isNone)).length - 10)
              ++ " more..."
          else "") := by
  have hfail : (summarizeDownloads days outcome).failedDays
      = days.filter (fun d => (outcome d).isNone) :=
    failedDays_zip_eq days outcome
  have hsucc : (summarizeDownloads days outcome).successCount
      = days.countP (fun d => (outcome d).isSome) := by
    show ((days.map outcome).filter Option.isSome).length = _
    rw [← List.countP_eq_length_filter, List.countP_map]
    rfl
  have hfcnt : (summarizeDownloads days outcome).failedCount
      = days.countP (fun d => (outcome d).isNone) := by
    show ((days.map outcome).filter Option.isNone).length = _
    rw [← List.countP_eq_length_filter, List.countP_map]
    rfl
  refine ⟨hfail, ?_, hfcnt, hsucc, ?_, ?_, ?_⟩
  · intro d
    rw [hfail, List.mem_filter]
    simp [Option.isNone_iff_eq_none]
  · rw [hsucc, hfcnt]
    have h := List.length_eq_countP_add_countP
      (p := fun d => (outcome d).isSome) (l := days)
    rw [h]
    congr 1
    refine List.countP_congr ?_
    intro d _
    cases outcome d <;> simp
  · show (days.map outcome).foldl
        (fun acc r => match r with | some (some b) => acc + b | _ => acc) 0 = _
    rw [foldl_bytes_eq]
    simp [List.map_map]
    rfl
  · show String.intercalate ", "
          ((((days.zip (days.map outcome)).filter (fun p => p.2.isNone)).map
            (fun p => p.1)).take 10) ++ _ = _
    rw [failedDays_zip_eq days outcome]

/-- Witness for C5: twelve days of which only d01 succeeds — eleven
failures all recorded (beyond the ten-name display cap), one success
recorded despite the sibling failures. -/
theorem summarizeDownloads_spec_witness :
    (summarizeDownloads exFanDays exFanOutcome).failedDays
        = exFanDays.filter (fun d => (exFanOutcome d).isNone) ∧
    (summarizeDownloads exFanDays exFanOutcome).failedDays.length = 11 ∧
    (summarizeDownloads exFanDays exFanOutcome).successCount = 1 ∧
    (summarizeDownloads exFanDays exFanOutcome).totalBytes = 10 ∧
    (summarizeDownloads exFanDays exFanOutcome).failedDaysDisplay
        = "d02, d03, d04, d05, d06, d07, d08, d09, d10, d11 and 1 more..." := by
  refine ⟨(summarizeDownloads_spec exFanDays exFanOutcome).1, ?_, ?_, ?_, ?_⟩
  · decide
  · decide
  · decide
  · decide

/-! ## C1: merged records, stable sort by source day -/

theorem recLE_trans (a b c : Rec) (hab : recLE a b) (hbc : recLE b c) :
    recLE a c := by
  simp only [recLE, decide_eq_true_eq] at hab hbc ⊢
  exact le_trans hab hbc

theorem recLE_total (a b : Rec) : recLE a b || recLE b a := by
  simp only [recLE]
  rcases le_total (dayOf a) (dayOf b) with h | h <;> simp [h]

/-- C1: in the report's record sequence, every record tagged d1 precedes
every record tagged d2 whenever d1 < d2, and within one tag the records
keep the relative order they had in the merged input sequence (stable sort
with the day as only key). -/
theorem processedRecords_sorted_stable (files : List (String × List Rec))
    (d1 d2 : String) (h12 : d1 < d2) :
    (∀ (i j : Nat) (hi : i < (processedRecords files).length)
        (hj : j < (processedRecords files).length),
        dayOf ((processedRecords files).get ⟨i, hi⟩) = d1 →
        dayOf ((processedRecords files).get ⟨j, hj⟩) = d2 → i < j) ∧
    (∀ d : String,
        (processedRecords files).filter (fun r => dayOf r == d)
          = (mergeFiles files).filter (fun r => dayOf r == d)) := by
  have hsorted : (processedRecords files).Pairwise (fun a b => recLE a b) :=
    List.sorted_mergeSort recLE_trans recLE_total (mergeFiles files)
  constructor
  · intro i j hi hj hdi hdj
    simp only [List.get_eq_getElem] at hdi hdj
    by_contra hcon
    push_neg at hcon
    have hne : j ≠ i := by
      intro h
      subst h
      rw [hdi] at hdj
      exact absurd hdj (ne_of_lt h12)
    have hji : j < i := lt_of_le_of_ne hcon hne
    have hle := List.pairwise_iff_getElem.mp hsorted j i hj hi hji
    simp only [recLE, decide_eq_true_eq, hdi, hdj] at hle
    exact absurd hle (not_le.mpr h12)
  · intro d
    have halltag : ∀ r ∈ (mergeFiles files).filter (fun r => dayOf r == d),
        dayOf r = d := by
      intro r hr
      simpa using (List.mem_filter.mp hr).2
    have hpair : ((mergeFiles files).filter (fun r => dayOf r == d)).Pairwise
        (fun a b => recLE a b) := by
      refine List.pairwise_of_forall_mem_list ?_
      intro a ha b hb
      simp [recLE, halltag a ha, halltag b hb]
    have hsub : List.Sublist ((mergeFiles files).filter (fun r => dayOf r == d))
        (processedRecords files) :=
      List.sublist_mergeSort recLE_trans recLE_total hpair
        (List.filter_sublist _)
    have hsub2 : List.Sublist
        ((mergeFiles files).filter (fun r => dayOf r == d))
        ((processedRecords files).filter (fun r => dayOf r == d)) := by
      have h2 := hsub.filter (fun r => dayOf r == d)
      simpa using h2
    have hperm : ((processedRecords files).filter (fun r => dayOf r == d)).length
        = ((mergeFiles files).filter (fun r => dayOf r == d)).length :=
      ((List.mergeSort_perm (mergeFiles files) recLE).filter _).length_eq
    exact (hsub2.eq_of_length hperm.symm).symm

/-- Witness for C1: two one-record files arriving in reverse day order. -/
theorem processedRecords_sorted_stable_witness :
    (∀ (i j : Nat)
        (hi : i < (processedRecords
          [("2025-04-02", [[("a", JValue.vStr "2")]]),
           ("2025-04-01", [[("a", JValue.vStr "1")]])]).length)
        (hj : j < (processedRecords
          [("2025-04-02", [[("a", JValue.vStr "2")]]),
           ("2025-04-01", [[("a", JValue.vStr "1")]])]).length),
        dayOf ((processedRecords
          [("2025-04-02", [[("a", JValue.vStr "2")]]),
           ("2025-04-01", [[("a", JValue.vStr "1")]])]).get ⟨i, hi⟩)
            = "2025-04-01" →
        dayOf ((processedRecords
          [("2025-04-02", [[("a", JValue.vStr "2")]]),
           ("2025-04-01", [[("a", JValue.vStr "1")]])]).get ⟨j, hj⟩)
            = "2025-04-02" → i < j) ∧
    (∀ d : String,
        (processedRecords
          [("2025-04-02", [[("a", JValue.vStr "2")]]),
           ("2025-04-01", [[("a", JValue.vStr "1")]])]).filter
            (fun r => dayOf r == d)
          = (mergeFiles
          [("2025-04-02", [[("a", JValue.vStr "2")]]),
           ("2025-04-01", [[("a", JValue.vStr "1")]])]).filter
            (fun r => dayOf r == d)) :=
  processedRecords_sorted_stable
    [("2025-04-02", [[("a", JValue.vStr "2")]]),
     ("2025-04-01", [[("a", JValue.vStr "1")]])]
    "2025-04-01" "2025-04-02"
    (by simp only [String.lt_iff_toList_lt]; decide)

/-! ## C4: row shape and empty-value serialization -/

/-- C4 (amended): every row assembled from a record has exactly as many
fields as the header has columns, and a missing or null field value
serializes as the empty string; a row replaced by the error placeholder
consists of a single field, so it matches the header width only for a
one-column report. -/
theorem report_row_shape (files : List (String × List Rec)) :
    (∀ row ∈ reportRows files,
        row.length = (reportColumns (processedRecords files)).length) ∧
    (∀ (c : String) (r : Rec),
        lookupField r c = none ∨ lookupField r c = some JValue.vNull →
        serializeCell c (lookupField r c) = "") ∧
    (∀ i : Nat, (placeholderCells i).length = 1) := by
  refine ⟨?_, ?_, fun i => rfl⟩
  · intro row hrow
    unfold reportRows at hrow
    rcases List.mem_map.mp hrow with ⟨r, _, rfl⟩
    exact List.length_map _ _
  · rintro c r (h | h) <;> rw [h] <;> rfl

/-- Witness for C4 at the concrete one-record input. -/
theorem report_row_shape_witness :
    (∀ row ∈ reportRows cexFiles,
        row.length = (reportColumns (processedRecords cexFiles)).length) ∧
    serializeCell "missing" (lookupField [("to", JValue.vStr "x")] "missing")
      = "" ∧
    (placeholderCells 0).length = 1 := by
  refine ⟨(report_row_shape cexFiles).1, ?_, (report_row_shape cexFiles).2.2 0⟩
  exact (report_row_shape cexFiles).2.1 "missing" [("to", JValue.vStr "x")]
    (Or.inl rfl)

/-- Counterexample to C4 as stated: on the one-field input cexFiles the
header has two columns (the parsed field and the attached fileDate tag),
while the error-placeholder row that replaces a failed row is one single
field — not as many fields as the header. -/
theorem report_row_shape_cex :
    (reportColumns (processedRecords cexFiles)).length = 2 ∧
    (placeholderCells 0).length = 1 ∧
    (placeholderCells 0).length
      ≠ (reportColumns (processedRecords cexFiles)).length := by
  have h2 : processedRecords cexFiles
      = [tagRecord "2025-04-01" [("to", JValue.vStr "x")]] := by
    show List.mergeSort [tagRecord "2025-04-01" [("to", JValue.vStr "x")]] recLE
        = _
    exact List.mergeSort_singleton _
  refine ⟨?_, rfl, ?_⟩
  · rw [h2]; decide
  · rw [h2]; decide

/-! ## C8: effect of the attached fileDate tag -/

theorem lookupField_setField_ne (r : Rec) (k c : String) (v : JValue)
    (h : c ≠ k) :
    lookupField (setField r k v) c = lookupField r c := by
  unfold setField
  split
  · unfold lookupField
    rw [List.find?_map]
    have hpred : ((fun kv : String × JValue => kv.1 == c) ∘
          fun kv : String × JValue => if kv.1 == k then (kv.1, v) else kv)
        = fun kv : String × JValue => kv.1 == c := by
      funext kv
      simp only [Function.comp_apply]
      split <;> rfl
    rw [hpred]
    cases hf : r.find? (fun kv => kv.1 == c) with
    | none => rfl
    | some kv =>
      have hkv := List.find?_some hf
      have hkc : kv.1 = c := by simpa using hkv
      have hkk : (kv.1 == k) = false := by
        rw [hkc, beq_eq_false_iff_ne]
        exact h
      show some ((if (kv.1 == k) = true then (kv.1, v) else kv).2) = some kv.2
      rw [if_neg (by simp [hkk])]
  · unfold lookupField
    rw [List.find?_append]
    have hlast : List.find? (fun kv : String × JValue => kv.1 == c) [(k, v)]
        = none := by
      rw [List.find?_eq_none]
      intro x hx
      rw [List.mem_singleton] at hx
      subst hx
      show ¬((k, v).1 == c) = true
      simpa using fun hc => h hc.symm
    rw [hlast, Option.or_none]

theorem lookupField_setField_self (r : Rec) (k : String) (v : JValue) :
    lookupField (setField r k v) k = some v := by
  unfold setField
  split
  · rename_i hany
    rcases List.any_eq_true.mp hany with ⟨kv0, hmem, hk0⟩
    unfold lookupField
    rw [List.find?_map]
    have hpred : ((fun kv : String × JValue => kv.1 == k) ∘
          fun kv : String × JValue => if kv.1 == k then (kv.1, v) else kv)
        = fun kv : String × JValue => kv.1 == k := by
      funext kv
      simp only [Function.comp_apply]
      split <;> rfl
    rw [hpred]
    have hsome : ∃ kv, r.find? (fun kv : String × JValue => kv.1 == k)
        = some kv := by
      cases hf : r.find? (fun kv : String × JValue => kv.1 == k) with
      | none => exact absurd (List.find?_eq_none.mp hf kv0 hmem hk0) (by simp)
      | some kv => exact ⟨kv, rfl⟩
    rcases hsome with ⟨kv, hf⟩
    have hkv := List.find?_some hf
    have hkk : (kv.1 == k) = true := by simpa using hkv
    rw [hf]
    show some ((if (kv.1 == k) = true then (kv.1, v) else kv).2) = some v
    rw [if_pos hkk]
  · unfold lookupField
    rw [List.find?_append]
    have hnone : r.find? (fun kv : String × JValue => kv.1 == k) = none := by
      rename_i hany
      rw [List.find?_eq_none]
      intro kv hkv hbeq
      exact hany (List.any_eq_true.mpr ⟨kv, hkv, hbeq⟩)
    rw [hnone, Option.none_or,
      List.find?_cons_of_pos _ (by simp)]
    rfl

theorem keys_tagRecord (d : String) (r : Rec) (c : String) :
    c ∈ (tagRecord d r).map Prod.fst ↔ c ∈ r.map Prod.fst ∨ c = "fileDate" := by
  unfold tagRecord setField
  split
  · rename_i hany
    rcases List.any_eq_true.mp hany with ⟨kv0, hmem, hk0⟩
    have hfd : "fileDate" ∈ r.map Prod.fst := by
      refine List.mem_map.mpr ⟨kv0, hmem, ?_⟩
      simpa using hk0
    have hkeys : (r.map fun kv : String × JValue =>
          if kv.1 == "fileDate" then (kv.1, JValue.vStr d) else kv).map Prod.fst
        = r.map Prod.fst := by
      rw [List.map_map]
      refine List.map_congr_left ?_
      intro kv _
      show (if kv.1 == "fileDate" then (kv.1, JValue.vStr d) else kv).1 = kv.1
      split <;> rfl
    rw [hkeys]
    constructor
    · exact Or.inl
    · rintro (h | rfl)
      · exact h
      · exact hfd
  · rw [List.map_append]
    simp [or_comm]

theorem mem_addKeys :
    ∀ (r : Rec) (acc : List String) (c : String),
      c ∈ addKeys acc r ↔ c ∈ acc ∨ c ∈ r.map Prod.fst
  | [], acc, c => by simp [addKeys]
  | kv :: rest, acc, c => by
    have ih := mem_addKeys rest (addUnique acc kv.1) c
    simp only [addKeys, List.foldl_cons] at ih ⊢
    rw [ih, mem_addUnique]
    simp only [List.map_cons, List.mem_cons]
    tauto

theorem mem_columns_fold :
    ∀ (records : List Rec) (acc : List String) (c : String),
      c ∈ records.foldl addKeys acc ↔
        c ∈ acc ∨ ∃ r ∈ records, c ∈ r.map Prod.fst
  | [], acc, c => by simp
  | r :: rest, acc, c => by
    rw [List.foldl_cons, mem_columns_fold rest (addKeys acc r) c, mem_addKeys]
    simp only [List.exists_mem_cons_iff]
    tauto

theorem mem_reportColumns (records : List Rec) (c : String) :
    c ∈ reportColumns records ↔ ∃ r ∈ records, c ∈ r.map Prod.fst := by
  unfold reportColumns
  rw [mem_columns_fold]
  simp

theorem mem_mergeFiles (files : List (String × List Rec)) (r : Rec) :
    r ∈ mergeFiles files ↔
      ∃ f ∈ files, ∃ r0 ∈ f.2, r = tagRecord f.1 r0 := by
  unfold mergeFiles
  rw [List.mem_flatten]
  constructor
  · rintro ⟨l, hl, hrl⟩
    rcases List.mem_map.mp hl with ⟨f, hf, rfl⟩
    rcases List.mem_map.mp hrl with ⟨r0, hr0, rfl⟩
    exact ⟨f, hf, r0, hr0, rfl⟩
  · rintro ⟨f, hf, r0, hr0, rfl⟩
    exact ⟨f.2.map (tagRecord f.1), List.mem_map.mpr ⟨f, hf, rfl⟩,
      List.mem_map.mpr ⟨r0, hr0, rfl⟩⟩

/-- C8 (amended): the attached source-day tag is an ordinary fileDate field
on each record — it leaves every other field's value unchanged (so no cell
of another column differs from what it would be without the tag), but it
does join the column union: the report columns are exactly the parsed
records' field names together with fileDate (whenever any record exists). -/
theorem fileDate_tag_effect (files : List (String × List Rec)) :
    (∀ (d : String) (r : Rec) (c : String), c ≠ "fileDate" →
        lookupField (tagRecord d r) c = lookupField r c) ∧
    (∀ (d : String) (r : Rec),
        lookupField (tagRecord d r) "fileDate" = some (JValue.vStr d)) ∧
    (∀ c : String, c ∈ reportColumns (processedRecords files) ↔
        (∃ f ∈ files, ∃ r ∈ f.2, c ∈ r.map Prod.fst) ∨
          (c = "fileDate" ∧ mergeFiles files ≠ [])) := by
  refine ⟨fun d r c hc => lookupField_setField_ne r "fileDate" c
      (JValue.vStr d) hc,
    fun d r => lookupField_setField_self r "fileDate" (JValue.vStr d), ?_⟩
  intro c
  rw [mem_reportColumns]
  have hmem : ∀ r : Rec, r ∈ processedRecords files ↔ r ∈ mergeFiles files :=
    fun r => List.mem_mergeSort
  constructor
  · rintro ⟨r, hr, hc⟩
    rcases (mem_mergeFiles files r).mp ((hmem r).mp hr) with ⟨f, hf, r0, hr0, rfl⟩
    rcases (keys_tagRecord f.1 r0 c).mp hc with h | rfl
    · exact Or.inl ⟨f, hf, r0, hr0, h⟩
    · exact Or.inr ⟨rfl, List.ne_nil_of_mem ((hmem _).mp hr)⟩
  · rintro (⟨f, hf, r0, hr0, hc⟩ | ⟨rfl, hne⟩)
    · refine ⟨tagRecord f.1 r0, (hmem _).mpr
        ((mem_mergeFiles files _).mpr ⟨f, hf, r0, hr0, rfl⟩), ?_⟩
      exact (keys_tagRecord f.1 r0 c).mpr (Or.inl hc)
    · rcases List.exists_mem_of_ne_nil _ hne with ⟨r, hr⟩
      refine ⟨r, (hmem r).mpr hr, ?_⟩
      rcases (mem_mergeFiles files r).mp hr with ⟨f, _, r0, _, rfl⟩
      exact (keys_tagRecord f.1 r0 _).mpr (Or.inr rfl)

/-- Witness for C8 at the concrete one-record input. -/
theorem fileDate_tag_effect_witness :
    lookupField (tagRecord "2025-04-01" [("to", JValue.vStr "x")]) "to"
        = lookupField [("to", JValue.vStr "x")] "to" ∧
    lookupField (tagRecord "2025-04-01" [("to", JValue.vStr "x")]) "fileDate"
        = some (JValue.vStr "2025-04-01") ∧
    ("fileDate" ∈ reportColumns (processedRecords cexFiles) ↔
        (∃ f ∈ cexFiles, ∃ r ∈ f.2, "fileDate" ∈ r.map Prod.fst) ∨
          ("fileDate" = "fileDate" ∧ mergeFiles cexFiles ≠ [])) :=
  ⟨(fileDate_tag_effect cexFiles).1 "2025-04-01" [("to", JValue.vStr "x")]
      "to" (by decide),
   (fileDate_tag_effect cexFiles).2.1 "2025-04-01" [("to", JValue.vStr "x")],
   (fileDate_tag_effect cexFiles).2.2 "fileDate"⟩

/-- Counterexample to C8 as stated: on the one-field input cexFiles the
code's column set is the parsed field followed by fileDate — the tag does
appear as a report column — whereas the column set built from the parsed
field names alone (the spec's wording) lacks it. -/
theorem fileDate_tag_cex :
    reportColumns (processedRecords cexFiles) = ["to", "fileDate"] ∧
    reportColumnsSpec cexFiles = ["to"] ∧
    reportColumns (processedRecords cexFiles) ≠ reportColumnsSpec cexFiles ∧
    "fileDate" ∈ reportColumns (processedRecords cexFiles) := by
  have h2 : processedRecords cexFiles
      = [tagRecord "2025-04-01" [("to", JValue.vStr "x")]] := by
    show List.mergeSort [tagRecord "2025-04-01" [("to", JValue.vStr "x")]]
        recLE = _
    exact List.mergeSort_singleton _
  have h3 : reportColumnsSpec cexFiles = ["to"] := by
    show (List.mergeSort [("2025-04-01", [("to", JValue.vStr "x")])]
        (fun a b => decide (a.1 ≤ b.1))).foldl (fun acc p => addKeys acc p.2) []
        = ["to"]
    rw [List.mergeSort_singleton]
    decide
  refine ⟨?_, h3, ?_, ?_⟩
  · rw [h2]; decide
  · rw [h2, h3]; decide
  · rw [h2]; decide

end TwilioCsv
